import Mathlib

/-!
Verification of the configuration-resolution and generation pipeline of the
x-generation composition generator (src/pkg/main.go).

The Go code is shallowly embedded: Go slices become `List String`, Go maps
become association lists (`StrMap`) with first-match lookup, Go pointers
become `Option`.  Go maps are reference values, so a function that writes
into a map argument mutates the caller's map; where that matters
(`appendStringMaps` inside `UpdateConfig`) the embedding returns the
post-call state of the global configuration explicitly.  A Go nil-pointer
dereference (panic) is modelled as the `none` result of an `Option`-valued
function.
-/

namespace XGen

/-- The fixed built-in global label list (source: `globalLabels`). -/
def globalLabels : List String :=
  ["crossplane.io/claim-name", "crossplane.io/claim-namespace",
   "crossplane.io/composite", "external-name"]

/-- Source `listHas`: check if the given value exists in list. -/
def listHas (list : List String) (value : String) : Bool :=
  match list with
  | [] => false
  | v :: rest => if v = value then true else listHas rest value

/-- Source `appendLists`: append list `b` to list `a`; items from `b` that
already exist in `a` are not appended.  The Go loop starts from a fresh
slice holding `a`'s elements and appends each `v` of `b` with
`!listHas(a, v)`. -/
def appendLists (a b : List String) : List String :=
  b.foldl (fun list v => if listHas a v then list else list ++ [v]) a

/-- A Go `map[string]string`, modelled as an association list; lookup finds
the first binding. -/
abbrev StrMap := List (String × String)

/-- Lookup of a key in a `StrMap` (Go `m[k]` with `ok` as `isSome`). -/
def mapLookup (m : StrMap) (k : String) : Option String :=
  match m with
  | [] => none
  | kv :: rest => if kv.1 = k then some kv.2 else mapLookup rest k

/-- Go `_, ok := m[k]`. -/
def mapHasKey (m : StrMap) (k : String) : Bool :=
  (mapLookup m k).isSome

/-- Go map assignment `m[k] = v`: replace the binding if the key is
present, otherwise add it. -/
def mapInsert (m : StrMap) (k v : String) : StrMap :=
  match m with
  | [] => [(k, v)]
  | kv :: rest => if kv.1 = k then (k, v) :: rest else kv :: mapInsert rest k v

/-- Source `appendStringMaps`: writes every binding of `b` into `a` (`b`
wins on collision) and returns `a`.  In Go this mutates the first
argument's backing storage; the returned value below is exactly the
post-call state of that storage. -/
def appendStringMaps (a b : StrMap) : StrMap :=
  b.foldl (fun acc kv => mapInsert acc kv.1 kv.2) a

/-- Source constant `replaceGlobal`. -/
def replaceGlobal : String := "replace"

/-- Source constant `appendGlobal`. -/
def appendGlobal : String := "append"

/-- Source `TagConfig`. -/
structure TagConfig where
  fromLabels : List String
  common : StrMap
  deriving DecidableEq

/-- Source `LabelConfig`. -/
structure LabelConfig where
  fromCRD : List String
  common : StrMap
  deriving DecidableEq

/-- Source `GeneratorConfig` restricted to the fields the resolution and
validation logic reads (the composition identifier and provider block are
passed through untouched). -/
structure GeneratorConfig where
  tags : TagConfig
  labels : LabelConfig
  deriving DecidableEq

/-- Source `GlobalHandlingTags` (the `GlobalHandlingType` strings). -/
structure GlobalHandlingTags where
  fromLabels : String
  common : String
  deriving DecidableEq

/-- Source `GlobalHandlingLabels`. -/
structure GlobalHandlingLabels where
  fromCRD : String
  common : String
  deriving DecidableEq

/-- Source `LocalTagConfig` (embedded `TagConfig` plus the policy). -/
structure LocalTagConfig where
  fromLabels : List String
  common : StrMap
  globalHandling : GlobalHandlingTags
  deriving DecidableEq

/-- Source `LocalLabelConfig`. -/
structure LocalLabelConfig where
  fromCRD : List String
  common : StrMap
  globalHandling : GlobalHandlingLabels
  deriving DecidableEq

/-- Source `Generator` restricted to the fields `UpdateConfig` and
`CheckConfig` read. -/
structure Generator where
  tags : LocalTagConfig
  labels : LocalLabelConfig
  deriving DecidableEq

/-- One of the four identical if/else-if blocks of `UpdateConfig`, list
form: `append` merges global under local, otherwise an empty local field
without `replace` inherits the global value, otherwise the local value is
kept. -/
def resolveListGo (handling : String) (globalList localList : List String) :
    List String :=
  if handling = appendGlobal then appendLists globalList localList
  else if localList.length = 0 ∧ handling ≠ replaceGlobal then globalList
  else localList

/-- The map form of the `UpdateConfig` blocks. -/
def resolveMapGo (handling : String) (globalMap localMap : StrMap) : StrMap :=
  if handling = appendGlobal then appendStringMaps globalMap localMap
  else if localMap.length = 0 ∧ handling ≠ replaceGlobal then globalMap
  else localMap

/-- Source `UpdateConfig` (the non-nil `generatorConfig` branch): resolves
the four governed sub-fields of the local config against the global one.
Because `appendStringMaps` writes into its first argument and the two
`Common` append branches pass the global config's map as that argument,
the global config's `labels.common` and `tags.common` maps are mutated in
those branches; the second component of the result is the global config as
it stands after the call. -/
def UpdateConfig (g : Generator) (gc : GeneratorConfig) :
    Generator × GeneratorConfig :=
  ({ tags :=
      { fromLabels :=
          resolveListGo g.tags.globalHandling.fromLabels
            gc.tags.fromLabels g.tags.fromLabels
        common :=
          resolveMapGo g.tags.globalHandling.common
            gc.tags.common g.tags.common
        globalHandling := g.tags.globalHandling }
     labels :=
      { fromCRD :=
          resolveListGo g.labels.globalHandling.fromCRD
            gc.labels.fromCRD g.labels.fromCRD
        common :=
          resolveMapGo g.labels.globalHandling.common
            gc.labels.common g.labels.common
        globalHandling := g.labels.globalHandling } },
   { tags :=
      { gc.tags with
        common :=
          if g.tags.globalHandling.common = appendGlobal then
            appendStringMaps gc.tags.common g.tags.common
          else gc.tags.common }
     labels :=
      { gc.labels with
        common :=
          if g.labels.globalHandling.common = appendGlobal then
            appendStringMaps gc.labels.common g.labels.common
          else gc.labels.common } })

/-- Source `Generator.CheckConfig`: every entry of the local
`tags.fromLabels` must be a key of the GLOBAL config's `labels.common`, or
an element of the local `labels.fromCRD`, or one of the built-in
`globalLabels`.  The Go function returns an error carrying the list of
offending fields; this is modelled as `some listOfErrFields`, success as
`none`. -/
def checkConfigErrFields (g : Generator) (gc : GeneratorConfig) :
    List String :=
  g.tags.fromLabels.filter
    (fun t => !mapHasKey gc.labels.common t && !listHas g.labels.fromCRD t &&
      !listHas globalLabels t)

/-- Source `Generator.CheckConfig`, the if/return part; the local Go
variable `listOfErrFields` is the named definition above.  `commonLables`
is the GLOBAL config's `labels.common`. -/
def CheckConfig (g : Generator) (gc : GeneratorConfig) :
    Option (List String) :=
  if (checkConfigErrFields g gc).length > 0 then
    some (checkConfigErrFields g gc)
  else none

/-- extv1.JSONSchemaProps restricted to the fields this program reads.
`items` models the `*JSONSchemaPropsOrArray` pointer: `none` is a nil
pointer, `some none` a non-nil pointer whose `Schema` is nil,
`some (some s)` a non-nil pointer with `Schema` `s`.
`additionalProperties` models `*JSONSchemaPropsOrBool` the same way. -/
inductive JSONSchemaProps : Type where
  | mk
      (type : String)
      (properties : List (String × JSONSchemaProps))
      (items : Option (Option JSONSchemaProps))
      (additionalProperties : Option (Option JSONSchemaProps)) :
      JSONSchemaProps

/-- The `Type` field. -/
def JSONSchemaProps.type : JSONSchemaProps → String
  | .mk t _ _ _ => t

/-- The `Properties` field. -/
def JSONSchemaProps.properties :
    JSONSchemaProps → List (String × JSONSchemaProps)
  | .mk _ p _ _ => p

/-- The `Items` pointer (with its inner `Schema` pointer). -/
def JSONSchemaProps.items : JSONSchemaProps → Option (Option JSONSchemaProps)
  | .mk _ _ i _ => i

/-- The `AdditionalProperties` pointer (with its inner `Schema` pointer). -/
def JSONSchemaProps.additionalProperties :
    JSONSchemaProps → Option (Option JSONSchemaProps)
  | .mk _ _ _ a => a

/-- Go map lookup in a `Properties` map (`map[string]JSONSchemaProps` holds
values, not pointers, so a hit never needs a nil check). -/
def propsLookup (props : List (String × JSONSchemaProps)) (k : String) :
    Option JSONSchemaProps :=
  match props with
  | [] => none
  | p :: rest => if p.1 = k then some p.2 else propsLookup rest k

/-- Go `_, ok := properties[k]`. -/
def hasProp (s : JSONSchemaProps) (k : String) : Bool :=
  (propsLookup s.properties k).isSome

/-- One entry of `crd.Spec.Versions`.  `schema` models
`schemaVersion.Schema` (`*CustomResourceValidation`) and its
`OpenAPIV3Schema` (`*JSONSchemaProps`): `none` is a nil `Schema`,
`some none` a nil `OpenAPIV3Schema`. -/
structure CRDVersion where
  name : String
  schema : Option (Option JSONSchemaProps)

/-- extv1.CustomResourceDefinition restricted to what `tryToGetTags`
reads. -/
structure CustomResourceDefinition where
  versions : List CRDVersion

/-- Source `tryToGetTags`, on the version list.  The result `none` models
a Go nil-pointer panic (dereferencing a nil `Schema` or `OpenAPIV3Schema`
of the matching version); `some none` models the "Could not find tags"
error; `some (some (tags, prop))` is the found schema node with the
reported tag-property name.  When a matching version lacks the
`spec`/`forProvider`/`tags`/`tagging.tagSet` path the Go loop continues
with the remaining versions. -/
def tryToGetTagsAux (versions : List CRDVersion) (version : String) :
    Option (Option (JSONSchemaProps × String)) :=
  match versions with
  | [] => some none
  | sv :: rest =>
    if sv.name = version then
      match sv.schema with
      | none => none
      | some none => none
      | some (some root) =>
        match propsLookup root.properties "spec" with
        | none => tryToGetTagsAux rest version
        | some specs =>
          match propsLookup specs.properties "forProvider" with
          | none => tryToGetTagsAux rest version
          | some forProvider =>
            match propsLookup forProvider.properties "tags" with
            | some tags => some (some (tags, "tag"))
            | none =>
              match propsLookup forProvider.properties "tagging" with
              | none => tryToGetTagsAux rest version
              | some tagging =>
                match propsLookup tagging.properties "tagSet" with
                | some tagSet => some (some (tagSet, "tagSet"))
                | none => tryToGetTagsAux rest version
    else tryToGetTagsAux rest version

/-- Source `tryToGetTags` on a CRD document. -/
def tryToGetTags (crd : CustomResourceDefinition) (version : String) :
    Option (Option (JSONSchemaProps × String)) :=
  tryToGetTagsAux crd.versions version

/-- Source `checkTagType`: classify how the CRD encodes tags.  The result
`none` models a Go nil-pointer panic (`tags.Items.Schema` or
`tags.AdditionalProperties.Schema` dereferenced through a nil pointer, or
a panic propagated from `tryToGetTags`); `some (t, p)` is the returned
pair of tag type and tag property, with `("", "")` the failed/unknown
result. -/
def checkTagType (crd : CustomResourceDefinition) (version : String) :
    Option (String × String) :=
  match tryToGetTags crd version with
  | none => none
  | some none => some ("", "")
  | some (some (tags, tagProperty)) =>
    if tags.type = "array" then
      match tags.items with
      | none => none
      | some none => none
      | some (some itemSchema) =>
        if itemSchema.type = "object" then
          if hasProp itemSchema "key" && hasProp itemSchema "value" then
            some ("keyValueArray", tagProperty)
          else if hasProp itemSchema "tagKey" && hasProp itemSchema "tagValue" then
            some ("tagKeyValueArray", tagProperty)
          else some ("", "")
        else some ("", "")
    else if tags.type = "object" then
      match tags.additionalProperties with
      | none => none
      | some none => none
      | some (some addl) =>
        if addl.type = "string" then some ("stringObject", tagProperty)
        else some ("", "")
    else some ("", "")

/-- Source `filepath.Join` as used by `Exec` (plain directory/name join). -/
def joinPath (dir name : String) : String :=
  dir ++ "/" ++ name

/-- Source constant `autogenHeader` with the timestamp substituted for the
`%s` verb. -/
def autogenHeader (ts : String) : String :=
  "## WARNING: This file was autogenerated!\n" ++
  "## Manual modifications will be overwritten\n" ++
  "## unless ignore: true is set in generate.yaml!\n" ++
  "## Last Modification: " ++ ts ++ ".\n\n"

/-- The output directory of `Exec`: the explicit `outputPath` flag when
non-empty, else the generator's own `configPath` directory. -/
def outputDir (outputPath configPath : String) : String :=
  if outputPath ≠ "" then outputPath else configPath

/-- Destination path of one output key: output directory joined with the
key plus ".yaml". -/
def destPath (outDir fn : String) : String :=
  joinPath outDir fn ++ ".yaml"

/-- The skip test of `Exec`'s output loop: the file exists (`os.Stat`
succeeds) and its parsed content is deeply equal (`cmp.Equal`) to the
newly generated content.  The filesystem is a map from path to raw
content; `parse` models reading plus `yaml.Unmarshal`. -/
def skipKey {α : Type} [DecidableEq α] (parse : String → α)
    (fs : String → Option String) (fp : String) (fc : α) : Bool :=
  match fs fp with
  | some raw => decide (parse raw = fc)
  | none => false

/-- `ioutil.WriteFile`: the filesystem after overwriting `fp` with `c`. -/
def writeFile (fs : String → Option String) (fp c : String) :
    String → Option String :=
  fun p => if p = fp then some c else fs p

/-- Source `Exec`, output loop: for each key of the jsonnet output, skip
the key when the existing file's parsed content equals the generated
content, otherwise overwrite the file with the autogeneration header
prepended to the marshalled content.  Returns the filesystem after the
loop together with the list of (path, content) writes performed.
`marshal` models `yaml.Marshal`. -/
def execRun {α : Type} [DecidableEq α] (marshal : α → String)
    (parse : String → α) (ts outDir : String) :
    List (String × α) → (String → Option String) →
      (String → Option String) × List (String × String)
  | [], fs => (fs, [])
  | kv :: rest, fs =>
    let fp := destPath outDir kv.1
    if skipKey parse fs fp kv.2 then
      execRun marshal parse ts outDir rest fs
    else
      let c := autogenHeader ts ++ marshal kv.2
      let r := execRun marshal parse ts outDir rest (writeFile fs fp c)
      (r.1, (fp, c) :: r.2)

/-- Modelled from the spec (section 4.3): the three-way per-sub-field
resolution policy, list form.  `append` merges local over global with the
merge utility; `replace`, or a local field with explicit entries, keeps
the local value; otherwise the local field inherits the global value
wholesale. -/
def specResolveList (handling : String) (globalList localList : List String) :
    List String :=
  if handling = appendGlobal then appendLists globalList localList
  else if handling = replaceGlobal ∨ localList ≠ [] then localList
  else globalList

/-- Modelled from the spec (section 4.3): the three-way policy, map form. -/
def specResolveMap (handling : String) (globalMap localMap : StrMap) :
    StrMap :=
  if handling = appendGlobal then appendStringMaps globalMap localMap
  else if handling = replaceGlobal ∨ localMap ≠ [] then localMap
  else globalMap

/-! ## Helper lemmas -/

lemma listHas_iff (l : List String) (v : String) : listHas l v = true ↔ v ∈ l := by
  induction l with
  | nil => simp [listHas]
  | cons x rest ih =>
    by_cases h : x = v
    · simp [listHas, h]
    · simp [listHas, h, ih]
      exact fun hvx => absurd hvx.symm h

lemma listHas_eq_false (l : List String) (v : String) :
    listHas l v = false ↔ v ∉ l := by
  simp [← listHas_iff]

lemma appendLists_eq_filter (a b : List String) :
    appendLists a b = a ++ b.filter (fun v => !listHas a v) := by
  have key : ∀ (l acc : List String),
      l.foldl (fun list v => if listHas a v then list else list ++ [v]) acc =
        acc ++ l.filter (fun v => !listHas a v) := by
    intro l
    induction l with
    | nil => intro acc; simp
    | cons v rest ih =>
      intro acc
      simp only [List.foldl_cons, List.filter_cons]
      by_cases hv : listHas a v = true
      · simp [hv, ih]
      · rw [Bool.not_eq_true] at hv
        simp [hv, ih, List.append_assoc]
  exact key b a

lemma mem_appendLists (a b : List String) (v : String) :
    v ∈ appendLists a b ↔ v ∈ a ∨ v ∈ b := by
  rw [appendLists_eq_filter, List.mem_append]
  constructor
  · rintro (h | h)
    · exact Or.inl h
    · exact Or.inr (List.mem_filter.mp h).1
  · rintro (h | h)
    · exact Or.inl h
    · by_cases ha : v ∈ a
      · exact Or.inl ha
      · refine Or.inr (List.mem_filter.mpr ⟨h, ?_⟩)
        simp [listHas_eq_false, ha]

lemma mapLookup_insert_self (m : StrMap) (k v : String) :
    mapLookup (mapInsert m k v) k = some v := by
  induction m with
  | nil => simp [mapInsert, mapLookup]
  | cons kv rest ih =>
    by_cases h : kv.1 = k
    · simp [mapInsert, h, mapLookup]
    · simp [mapInsert, h, mapLookup, ih]

lemma mapLookup_insert_ne (m : StrMap) (k v k' : String) (h : k ≠ k') :
    mapLookup (mapInsert m k v) k' = mapLookup m k' := by
  induction m with
  | nil => simp [mapInsert, mapLookup, h]
  | cons kv rest ih =>
    by_cases hk : kv.1 = k
    · simp [mapInsert, hk, mapLookup, h]
    · simp [mapInsert, hk, mapLookup, ih]

lemma mapLookup_eq_none_of_not_mem (m : StrMap) (k : String)
    (h : k ∉ m.map Prod.fst) : mapLookup m k = none := by
  induction m with
  | nil => rfl
  | cons kv rest ih =>
    simp only [List.map_cons, List.mem_cons] at h
    push_neg at h
    have hne : ¬kv.1 = k := fun he => h.1 he.symm
    simp [mapLookup, hne, ih h.2]

lemma appendStringMaps_cons (a : StrMap) (kv : String × String) (rest : StrMap) :
    appendStringMaps a (kv :: rest) =
      appendStringMaps (mapInsert a kv.1 kv.2) rest := rfl

lemma appendStringMaps_lookup (b : StrMap) :
    ∀ (a : StrMap), (b.map Prod.fst).Nodup → ∀ k,
      mapLookup (appendStringMaps a b) k =
        match mapLookup b k with
        | some v => some v
        | none => mapLookup a k := by
  induction b with
  | nil => intro a _ k; rfl
  | cons kv rest ih =>
    intro a hnd k
    simp only [List.map_cons, List.nodup_cons] at hnd
    rw [appendStringMaps_cons, ih _ hnd.2 k]
    by_cases hk : kv.1 = k
    · subst hk
      rw [mapLookup_eq_none_of_not_mem rest kv.1 hnd.1]
      simp [mapLookup, mapLookup_insert_self]
    · cases hr : mapLookup rest k <;>
        simp [mapLookup, hk, hr, mapLookup_insert_ne _ _ _ _ hk]

/-! ## Claims about the merge utilities (C7, C10, C8) -/

/-- C7: `appendLists` returns the base list first, in order and without
removal, followed by the addition's elements not already present in the
base (membership by string equality); it is idempotent in the sense
`appendLists (appendLists A B) B = appendLists A B`, and the result is at
most as long as both inputs together. -/
theorem appendLists_merge_props (A B : List String) :
    appendLists A B = A ++ B.filter (fun v => decide (v ∉ A))
    ∧ appendLists (appendLists A B) B = appendLists A B
    ∧ (appendLists A B).length ≤ A.length + B.length := by
  have hpred : ∀ (l : List String),
      l.filter (fun v => !listHas A v) = l.filter (fun v => decide (v ∉ A)) := by
    intro l
    apply List.filter_congr
    intro x _
    by_cases hx : x ∈ A <;> simp [listHas_iff, listHas_eq_false, hx]
  refine ⟨by rw [appendLists_eq_filter, hpred], ?_, ?_⟩
  · rw [appendLists_eq_filter (appendLists A B) B]
    have hnil : B.filter (fun v => !listHas (appendLists A B) v) = [] := by
      rw [List.filter_eq_nil_iff]
      intro v hv
      simp only [Bool.not_eq_true', Bool.not_eq_false]
      rw [listHas_iff]
      exact (mem_appendLists A B v).mpr (Or.inr hv)
    rw [hnil, List.append_nil]
  · rw [appendLists_eq_filter, List.length_append]
    exact Nat.add_le_add_left (List.length_filter_le _ _) _

/-- C10: `appendLists` deduplicates only against the base list, not within
the result: occurrence counts satisfy
`count v (appendLists a b) = count v a + (if v ∈ a then 0 else count v b)`,
so an addition element absent from the base is appended once per
occurrence and duplicates inside the base are preserved; in particular
appending `["x", "x"]` to the empty list yields `["x", "x"]`. -/
theorem appendLists_keeps_duplicates :
    appendLists [] ["x", "x"] = ["x", "x"]
    ∧ ∀ (a b : List String) (v : String),
        (appendLists a b).count v =
          a.count v + (if v ∈ a then 0 else b.count v) := by
  constructor
  · rfl
  · intro a b v
    rw [appendLists_eq_filter, List.count_append]
    by_cases hv : v ∈ a
    · have hzero : (b.filter (fun w => !listHas a w)).count v = 0 := by
        rw [List.count_eq_zero]
        intro hmem
        have := (List.mem_filter.mp hmem).2
        rw [Bool.not_eq_true', ← Bool.not_eq_true, listHas_iff] at this
        exact this hv
      simp [hv, hzero]
    · have hkeep : (b.filter (fun w => !listHas a w)).count v = b.count v := by
        apply List.count_filter
        simp [listHas_eq_false, hv]
      simp [hv, hkeep]

/-- C8: `appendStringMaps a b` maps every key of `b` to `b`'s value, every
key absent from `b` to `a`'s value for it (in particular keys only in `a`
keep `a`'s value), and holds no key outside the union of both key sets. -/
theorem appendStringMaps_override (a b : StrMap)
    (hb : (b.map Prod.fst).Nodup) :
    (∀ k v, mapLookup b k = some v →
        mapLookup (appendStringMaps a b) k = some v)
    ∧ (∀ k, mapLookup b k = none →
        mapLookup (appendStringMaps a b) k = mapLookup a k)
    ∧ (∀ k, mapLookup a k = none → mapLookup b k = none →
        mapLookup (appendStringMaps a b) k = none) := by
  refine ⟨?_, ?_, ?_⟩
  · intro k v hkv
    rw [appendStringMaps_lookup b a hb k, hkv]
  · intro k hk
    rw [appendStringMaps_lookup b a hb k, hk]
  · intro k hka hkb
    rw [appendStringMaps_lookup b a hb k, hkb, hka]

/-- C8 witness: concrete maps with an overlapping key. -/
theorem appendStringMaps_override_witness :
    mapLookup (appendStringMaps [("x", "1"), ("y", "2")]
      [("y", "9"), ("z", "3")]) "y" = some "9" :=
  (appendStringMaps_override [("x", "1"), ("y", "2")] [("y", "9"), ("z", "3")]
    (by decide)).1 "y" "9" (by decide)

/-! ## Claims about configuration resolution (C2, C1) -/

lemma resolveListGo_eq_spec (h : String) (glob loc : List String) :
    resolveListGo h glob loc = specResolveList h glob loc := by
  unfold resolveListGo specResolveList
  by_cases ha : h = appendGlobal
  · simp [ha]
  · by_cases hr : h = replaceGlobal
    · by_cases hl : loc = [] <;> simp [ha, hr, hl, List.length_eq_zero]
    · by_cases hl : loc = [] <;> simp [ha, hr, hl, List.length_eq_zero]

lemma resolveMapGo_eq_spec (h : String) (glob loc : StrMap) :
    resolveMapGo h glob loc = specResolveMap h glob loc := by
  unfold resolveMapGo specResolveMap
  by_cases ha : h = appendGlobal
  · simp [ha]
  · by_cases hr : h = replaceGlobal
    · by_cases hl : loc = [] <;> simp [ha, hr, hl, List.length_eq_zero]
    · by_cases hl : loc = [] <;> simp [ha, hr, hl, List.length_eq_zero]

/-- C2: each of the four governed sub-fields of the resolved local config
follows the three-way policy: `append` merges local over global with the
matching merge utility, `replace` or explicit local entries keep the local
value unchanged, and otherwise the global value is inherited wholesale. -/
theorem updateConfig_three_way_policy (g : Generator) (gc : GeneratorConfig) :
    (UpdateConfig g gc).1.labels.fromCRD =
      specResolveList g.labels.globalHandling.fromCRD
        gc.labels.fromCRD g.labels.fromCRD
    ∧ (UpdateConfig g gc).1.labels.common =
      specResolveMap g.labels.globalHandling.common
        gc.labels.common g.labels.common
    ∧ (UpdateConfig g gc).1.tags.fromLabels =
      specResolveList g.tags.globalHandling.fromLabels
        gc.tags.fromLabels g.tags.fromLabels
    ∧ (UpdateConfig g gc).1.tags.common =
      specResolveMap g.tags.globalHandling.common
        gc.tags.common g.tags.common :=
  ⟨resolveListGo_eq_spec _ _ _, resolveMapGo_eq_spec _ _ _,
   resolveListGo_eq_spec _ _ _, resolveMapGo_eq_spec _ _ _⟩

/-- C1 failing input: an empty global `labels.common` and a local config
with `globalHandling.common = append` and one local common label. -/
def gcEx1 : GeneratorConfig :=
  { tags := { fromLabels := [], common := [] }
    labels := { fromCRD := [], common := [] } }

/-- C1 failing input, local side. -/
def gEx1 : Generator :=
  { tags := { fromLabels := [], common := []
              globalHandling := { fromLabels := "", common := "" } }
    labels := { fromCRD := [], common := [("team", "x")]
                globalHandling := { fromCRD := "", common := "append" } } }

/-- C1: the resolution step does NOT leave the global configuration
unchanged.  `appendStringMaps` writes into its first argument's backing
storage, and the `append` branch of `UpdateConfig` passes the global
`labels.common` map as that argument, so after resolving `gEx1` the
global map has gained the local entry `("team", "x")`. -/
theorem updateConfig_mutates_global :
    (UpdateConfig gEx1 gcEx1).2.labels.common = [("team", "x")]
    ∧ gcEx1.labels.common = []
    ∧ (UpdateConfig gEx1 gcEx1).2 ≠ gcEx1 := by decide

/-! ## Claims about validation (C3, C9) -/

/-- C3: validation succeeds exactly when every entry of the resolved
`tags.fromLabels` is a key of the global config's `labels.common`, or an
element of the resolved `labels.fromCRD`, or one of the four built-in
global labels; on failure the returned error lists exactly the offending
entries. -/
theorem checkConfig_valid_iff (g : Generator) (gc : GeneratorConfig) :
    (CheckConfig g gc = none ↔
      ∀ t ∈ g.tags.fromLabels,
        mapHasKey gc.labels.common t = true ∨ t ∈ g.labels.fromCRD
          ∨ t ∈ globalLabels)
    ∧ (∀ errs, CheckConfig g gc = some errs →
        ∀ t, t ∈ errs ↔
          (t ∈ g.tags.fromLabels ∧
            ¬(mapHasKey gc.labels.common t = true ∨ t ∈ g.labels.fromCRD
              ∨ t ∈ globalLabels))) := by
  have hpred : ∀ t,
      ((!mapHasKey gc.labels.common t && !listHas g.labels.fromCRD t &&
        !listHas globalLabels t) = true) ↔
      ¬(mapHasKey gc.labels.common t = true ∨ t ∈ g.labels.fromCRD
        ∨ t ∈ globalLabels) := by
    intro t
    simp [Bool.and_eq_true, Bool.not_eq_true', listHas_eq_false, not_or,
      and_assoc]
  constructor
  · constructor
    · intro hnone t ht
      by_contra hbad
      have hmem : t ∈ checkConfigErrFields g gc :=
        List.mem_filter.mpr ⟨ht, (hpred t).mpr hbad⟩
      have hpos : (checkConfigErrFields g gc).length > 0 :=
        List.length_pos.mpr (List.ne_nil_of_mem hmem)
      rw [CheckConfig, if_pos hpos] at hnone
      exact Option.noConfusion hnone
    · intro hall
      have hnil : checkConfigErrFields g gc = [] := by
        rw [checkConfigErrFields, List.filter_eq_nil_iff]
        intro t ht hc
        exact (hpred t).mp hc (hall t ht)
      rw [CheckConfig, hnil]
      simp
  · intro errs herrs t
    rw [CheckConfig] at herrs
    by_cases hpos : (checkConfigErrFields g gc).length > 0
    · rw [if_pos hpos] at herrs
      have herr : errs = checkConfigErrFields g gc :=
        (Option.some.injEq _ _ ▸ herrs).symm
      rw [herr, checkConfigErrFields, List.mem_filter]
      exact and_congr_right fun _ => hpred t
    · rw [if_neg hpos] at herrs
      exact Option.noConfusion herrs

/-- C3 witness input: one `tags.fromLabels` entry that resolves nowhere
(the entry sits in the LOCAL `labels.common`, which validation ignores). -/
def gEx3 : Generator :=
  { tags := { fromLabels := ["bad"], common := []
              globalHandling := { fromLabels := "", common := "" } }
    labels := { fromCRD := [], common := [("bad", "v")]
                globalHandling := { fromCRD := "", common := "" } } }

/-- C3 witness input, global side. -/
def gcEx3 : GeneratorConfig :=
  { tags := { fromLabels := [], common := [] }
    labels := { fromCRD := [], common := [] } }

/-- C3 witness: the failing validation of `gEx3` reports exactly the
offending entry. -/
theorem checkConfig_valid_iff_witness :
    "bad" ∈ ["bad"] ↔
      ("bad" ∈ gEx3.tags.fromLabels ∧
        ¬(mapHasKey gcEx3.labels.common "bad" = true
          ∨ "bad" ∈ gEx3.labels.fromCRD ∨ "bad" ∈ globalLabels)) :=
  (checkConfig_valid_iff gEx3 gcEx3).2 ["bad"] (by decide) "bad"

/-- C9: validation consults only the GLOBAL config's `labels.common`;
two local configs agreeing on `tags.fromLabels` and `labels.fromCRD` but
with arbitrary local `labels.common` validate identically. -/
theorem checkConfig_ignores_local_common (g1 g2 : Generator)
    (gc : GeneratorConfig) (hfl : g1.tags.fromLabels = g2.tags.fromLabels)
    (hcrd : g1.labels.fromCRD = g2.labels.fromCRD) :
    CheckConfig g1 gc = CheckConfig g2 gc := by
  unfold CheckConfig checkConfigErrFields
  rw [hfl, hcrd]

/-- C9 witness input: local common holds the looked-up label. -/
def gEx9a : Generator :=
  { tags := { fromLabels := ["team"], common := []
              globalHandling := { fromLabels := "", common := "" } }
    labels := { fromCRD := [], common := [("team", "x")]
                globalHandling := { fromCRD := "", common := "" } } }

/-- C9 witness input: same lists, empty local common. -/
def gEx9b : Generator :=
  { tags := { fromLabels := ["team"], common := []
              globalHandling := { fromLabels := "", common := "" } }
    labels := { fromCRD := [], common := []
                globalHandling := { fromCRD := "", common := "" } } }

/-- C9 witness input, global side. -/
def gcEx9 : GeneratorConfig :=
  { tags := { fromLabels := [], common := [] }
    labels := { fromCRD := [], common := [] } }

/-- C9 witness: changing only the local `labels.common` leaves the
validation result unchanged. -/
theorem checkConfig_ignores_local_common_witness :
    CheckConfig gEx9a gcEx9 = CheckConfig gEx9b gcEx9 :=
  checkConfig_ignores_local_common gEx9a gEx9b gcEx9 rfl rfl

/-! ## Claims about tag-schema detection (C4, C5) -/

/-- A string-typed leaf schema. -/
def strSchema : JSONSchemaProps := .mk "string" [] none none

/-- Item schema with `key` and `value` properties. -/
def keyValueItems : JSONSchemaProps :=
  .mk "object" [("key", strSchema), ("value", strSchema)] none none

/-- Item schema with `tagKey` and `tagValue` properties. -/
def tagKeyValueItems : JSONSchemaProps :=
  .mk "object" [("tagKey", strSchema), ("tagValue", strSchema)] none none

/-- Array-typed tags with key/value object items. -/
def tagsKeyValueArray : JSONSchemaProps :=
  .mk "array" [] (some (some keyValueItems)) none

/-- Array-typed tags with tagKey/tagValue object items. -/
def tagsTagKeyValueArray : JSONSchemaProps :=
  .mk "array" [] (some (some tagKeyValueItems)) none

/-- Object-typed tags with string additionalProperties. -/
def tagsStringObject : JSONSchemaProps :=
  .mk "object" [] none (some (some strSchema))

/-- Array-typed tags whose `Items` pointer is nil. -/
def tagsArrayNoItems : JSONSchemaProps := .mk "array" [] none none

/-- Object-typed tags whose `AdditionalProperties` pointer is nil. -/
def tagsObjectNoAddl : JSONSchemaProps := .mk "object" [] none none

/-- A version root schema whose `spec.properties.forProvider.properties`
is the given property list. -/
def mkVersionRoot (forProviderProps : List (String × JSONSchemaProps)) :
    JSONSchemaProps :=
  .mk "object"
    [("spec", .mk "object"
      [("forProvider", .mk "object" forProviderProps none none)] none none)]
    none none

/-- A one-version CRD named `v1` with the given forProvider properties. -/
def mkCRD (forProviderProps : List (String × JSONSchemaProps)) :
    CustomResourceDefinition :=
  ⟨[⟨"v1", some (some (mkVersionRoot forProviderProps))⟩]⟩

/-- CRD with key/value array tags. -/
def crdKeyValue : CustomResourceDefinition := mkCRD [("tags", tagsKeyValueArray)]

/-- CRD with tagKey/tagValue array tags. -/
def crdTagKeyValue : CustomResourceDefinition :=
  mkCRD [("tags", tagsTagKeyValueArray)]

/-- CRD with string-object tags. -/
def crdStringObject : CustomResourceDefinition :=
  mkCRD [("tags", tagsStringObject)]

/-- CRD whose tags live under `tagging.tagSet`. -/
def crdTagSet : CustomResourceDefinition :=
  mkCRD [("tagging", .mk "object" [("tagSet", tagsKeyValueArray)] none none)]

/-- CRD with both a `tags` and a `tagging.tagSet` property. -/
def crdBoth : CustomResourceDefinition :=
  mkCRD [("tags", tagsStringObject),
         ("tagging", .mk "object" [("tagSet", tagsKeyValueArray)] none none)]

/-- CRD whose forProvider has neither `tags` nor `tagging.tagSet`. -/
def crdNoTags : CustomResourceDefinition := mkCRD [("other", strSchema)]

/-- C4 failing input: array-typed tags with a nil `Items` pointer. -/
def crdArrayNoItems : CustomResourceDefinition :=
  mkCRD [("tags", tagsArrayNoItems)]

/-- C5 failing input: object-typed tags with a nil `AdditionalProperties`
pointer. -/
def crdObjectNoAddl : CustomResourceDefinition :=
  mkCRD [("tags", tagsObjectNoAddl)]

/-- C5 failing input: a matching version whose `Schema` pointer is nil. -/
def crdNilVersionSchema : CustomResourceDefinition := ⟨[⟨"v1", none⟩]⟩

/-- C4: tag-schema detection classifies key/value array items as
`keyValueArray`, tagKey/tagValue items as `tagKeyValueArray`,
string-typed additionalProperties as `stringObject` (each reporting the
tag property `tag`, or `tagSet` when found under `tagging.tagSet`, with
`tags` taking precedence), and returns the unknown result `("", "")` for
an absent version or an absent tags property; BUT on an array-typed tags
node with a nil items schema the code dereferences a nil pointer
(modelled `none`) instead of returning the unknown result. -/
theorem checkTagType_classification :
    checkTagType crdKeyValue "v1" = some ("keyValueArray", "tag")
    ∧ checkTagType crdTagKeyValue "v1" = some ("tagKeyValueArray", "tag")
    ∧ checkTagType crdStringObject "v1" = some ("stringObject", "tag")
    ∧ checkTagType crdTagSet "v1" = some ("keyValueArray", "tagSet")
    ∧ checkTagType crdBoth "v1" = some ("stringObject", "tag")
    ∧ checkTagType crdKeyValue "v2" = some ("", "")
    ∧ checkTagType crdNoTags "v1" = some ("", "")
    ∧ checkTagType crdArrayNoItems "v1" = none :=
  ⟨rfl, rfl, rfl, rfl, rfl, rfl, rfl, rfl⟩

/-- C5: tag-schema detection is NOT total: a matching version with an
object-typed tags node whose `AdditionalProperties` pointer is nil, or
with a nil version `Schema` pointer, makes the code dereference a nil
pointer (modelled `none`) instead of treating the missing nesting level
as not-found. -/
theorem checkTagType_panics_on_missing_schema :
    checkTagType crdObjectNoAddl "v1" = none
    ∧ checkTagType crdNilVersionSchema "v1" = none :=
  ⟨rfl, rfl⟩

/-! ## Claims about the output-writing discipline (C6) -/

lemma destPath_inj (outDir fn1 fn2 : String)
    (h : destPath outDir fn1 = destPath outDir fn2) : fn1 = fn2 := by
  unfold destPath joinPath at h
  have hd := congrArg String.data h
  simp only [String.data_append] at hd
  exact String.ext (List.append_cancel_left (List.append_cancel_right hd))

lemma skipKey_congr {α : Type} [DecidableEq α] (parse : String → α)
    (fs1 fs2 : String → Option String) (fp : String) (fc : α)
    (h : fs1 fp = fs2 fp) :
    skipKey parse fs1 fp fc = skipKey parse fs2 fp fc := by
  unfold skipKey
  rw [h]

lemma execRun_untouched {α : Type} [DecidableEq α] (marshal : α → String)
    (parse : String → α) (ts outDir : String) :
    ∀ (jso : List (String × α)) (fs : String → Option String) (p : String),
      (∀ kv ∈ jso, destPath outDir kv.1 ≠ p) →
      (execRun marshal parse ts outDir jso fs).1 p = fs p := by
  intro jso
  induction jso with
  | nil => intro fs p _; rfl
  | cons kv rest ih =>
    intro fs p h
    have hkv : destPath outDir kv.1 ≠ p := h kv (List.mem_cons_self kv rest)
    have hrest : ∀ kv2 ∈ rest, destPath outDir kv2.1 ≠ p :=
      fun kv2 h2 => h kv2 (List.mem_cons_of_mem kv h2)
    simp only [execRun]
    by_cases hs : skipKey parse fs (destPath outDir kv.1) kv.2
    · rw [if_pos hs]
      exact ih fs p hrest
    · rw [if_neg hs]
      simp only
      rw [ih _ p hrest]
      unfold writeFile
      rw [if_neg (fun hpe => hkv hpe.symm)]

lemma execRun_writes_shape {α : Type} [DecidableEq α] (marshal : α → String)
    (parse : String → α) (ts outDir : String) :
    ∀ (jso : List (String × α)) (fs : String → Option String),
      ∀ pc ∈ (execRun marshal parse ts outDir jso fs).2,
        ∃ kv ∈ jso, pc.1 = destPath outDir kv.1 ∧
          pc.2 = autogenHeader ts ++ marshal kv.2 := by
  intro jso
  induction jso with
  | nil =>
    intro fs pc hpc
    simp only [execRun, List.not_mem_nil] at hpc
  | cons kv rest ih =>
    intro fs pc hpc
    simp only [execRun] at hpc
    by_cases hs : skipKey parse fs (destPath outDir kv.1) kv.2
    · rw [if_pos hs] at hpc
      obtain ⟨kv2, h2, h3⟩ := ih fs pc hpc
      exact ⟨kv2, List.mem_cons_of_mem kv h2, h3⟩
    · rw [if_neg hs] at hpc
      simp only at hpc
      rcases List.mem_cons.mp hpc with hpc1 | hpc2
      · exact ⟨kv, List.mem_cons_self kv rest, by rw [hpc1], by rw [hpc1]⟩
      · obtain ⟨kv2, h2, h3⟩ := ih _ pc hpc2
        exact ⟨kv2, List.mem_cons_of_mem kv h2, h3⟩

lemma execRun_post_skip {α : Type} [DecidableEq α] (marshal : α → String)
    (parse : String → α)
    (hrt : ∀ t a, parse (autogenHeader t ++ marshal a) = a)
    (ts outDir : String) :
    ∀ (jso : List (String × α)) (fs : String → Option String),
      (jso.map Prod.fst).Nodup →
      ∀ kv ∈ jso,
        skipKey parse (execRun marshal parse ts outDir jso fs).1
          (destPath outDir kv.1) kv.2 = true := by
  intro jso
  induction jso with
  | nil => intro fs _ kv hkv; exact absurd hkv (List.not_mem_nil kv)
  | cons kv0 rest ih =>
    intro fs hnd kv hkv
    simp only [List.map_cons, List.nodup_cons] at hnd
    obtain ⟨hk0, hndrest⟩ := hnd
    rcases List.mem_cons.mp hkv with heq | hkvrest
    · subst heq
      have hpaths : ∀ kv2 ∈ rest, destPath outDir kv2.1 ≠ destPath outDir kv.1 := by
        intro kv2 h2 hpe
        exact hk0 (destPath_inj outDir kv2.1 kv.1 hpe ▸
          List.mem_map_of_mem Prod.fst h2)
      by_cases hs : skipKey parse fs (destPath outDir kv.1) kv.2
      · simp only [execRun]
        rw [if_pos hs]
        rw [skipKey_congr parse _ fs _ kv.2
          (execRun_untouched marshal parse ts outDir rest fs _ hpaths)]
        exact hs
      · simp only [execRun]
        rw [if_neg hs]
        simp only
        rw [skipKey_congr parse _
          (writeFile fs (destPath outDir kv.1) (autogenHeader ts ++ marshal kv.2)) _ kv.2
          (execRun_untouched marshal parse ts outDir rest _ _ hpaths)]
        unfold skipKey writeFile
        simp [hrt]
    · by_cases hs : skipKey parse fs (destPath outDir kv0.1) kv0.2
      · simp only [execRun]
        rw [if_pos hs]
        exact ih fs hndrest kv hkvrest
      · simp only [execRun]
        rw [if_neg hs]
        simp only
        exact ih _ hndrest kv hkvrest

lemma execRun_all_skip {α : Type} [DecidableEq α] (marshal : α → String)
    (parse : String → α) (ts outDir : String) :
    ∀ (jso : List (String × α)) (fs : String → Option String),
      (∀ kv ∈ jso, skipKey parse fs (destPath outDir kv.1) kv.2 = true) →
      execRun marshal parse ts outDir jso fs = (fs, []) := by
  intro jso
  induction jso with
  | nil => intro fs _; rfl
  | cons kv rest ih =>
    intro fs h
    simp only [execRun]
    rw [if_pos (h kv (List.mem_cons_self kv rest))]
    exact ih fs (fun kv2 h2 => h kv2 (List.mem_cons_of_mem kv h2))

/-- C6: the output discipline of `Exec`.  Every write lands at the output
directory (the `outputPath` flag when non-empty, else the config's source
directory) joined with the key plus ".yaml", and carries the
autogeneration header prepended to the marshalled content; a key whose
existing file parses equal to the generated content is skipped (the
filesystem is untouched); a key without such a file is overwritten with
header plus content; and when the parse of a written file recovers the
generated content (the codec round-trip) a second run over the same
output map performs zero writes. -/
theorem exec_output_discipline {α : Type} [DecidableEq α]
    (marshal : α → String) (parse : String → α)
    (ts ts2 outputPath configPath : String) (jso : List (String × α))
    (fs : String → Option String) :
    (∀ pc ∈ (execRun marshal parse ts (outputDir outputPath configPath) jso fs).2,
        ∃ kv ∈ jso,
          pc.1 = destPath (outputDir outputPath configPath) kv.1 ∧
          pc.2 = autogenHeader ts ++ marshal kv.2)
    ∧ (∀ fn fc raw,
        fs (destPath (outputDir outputPath configPath) fn) = some raw →
        parse raw = fc →
        execRun marshal parse ts (outputDir outputPath configPath)
          [(fn, fc)] fs = (fs, []))
    ∧ (∀ fn fc,
        (∀ raw, fs (destPath (outputDir outputPath configPath) fn) = some raw →
          parse raw ≠ fc) →
        (execRun marshal parse ts (outputDir outputPath configPath)
            [(fn, fc)] fs).2 =
          [(destPath (outputDir outputPath configPath) fn,
            autogenHeader ts ++ marshal fc)] ∧
        (execRun marshal parse ts (outputDir outputPath configPath)
            [(fn, fc)] fs).1
          (destPath (outputDir outputPath configPath) fn) =
          some (autogenHeader ts ++ marshal fc))
    ∧ ((jso.map Prod.fst).Nodup →
        (∀ t a, parse (autogenHeader t ++ marshal a) = a) →
        (execRun marshal parse ts2 (outputDir outputPath configPath) jso
          (execRun marshal parse ts (outputDir outputPath configPath) jso fs).1).2
          = []) := by
  refine ⟨execRun_writes_shape marshal parse ts _ jso fs, ?_, ?_, ?_⟩
  · intro fn fc raw hraw hparse
    have hskip : skipKey parse fs
        (destPath (outputDir outputPath configPath) fn) fc = true := by
      unfold skipKey
      rw [hraw]
      simp [hparse]
    simp only [execRun]
    rw [if_pos hskip]
  · intro fn fc hne
    have hskip : skipKey parse fs
        (destPath (outputDir outputPath configPath) fn) fc = false := by
      unfold skipKey
      cases hfp : fs (destPath (outputDir outputPath configPath) fn) with
      | none => rfl
      | some raw => simpa using hne raw hfp
    constructor
    · simp only [execRun]
      rw [if_neg (by simp [hskip])]
    · simp only [execRun]
      rw [if_neg (by simp [hskip])]
      simp only [execRun]
      unfold writeFile
      simp
  · intro hnd hrt
    have hskip := execRun_post_skip marshal parse hrt ts
      (outputDir outputPath configPath) jso fs hnd
    rw [execRun_all_skip marshal parse ts2 (outputDir outputPath configPath)
      jso _ hskip]

/-- C6 witness: a concrete two-key run over an empty filesystem followed by
a second run performs zero writes in the second run. -/
theorem exec_output_discipline_witness :
    (execRun (fun _ : Unit => "doc") (fun _ => ()) "t2" (outputDir "" "dir")
      [("a", ()), ("b", ())]
      (execRun (fun _ : Unit => "doc") (fun _ => ()) "t1" (outputDir "" "dir")
        [("a", ()), ("b", ())] (fun _ => none)).1).2 = [] :=
  (exec_output_discipline (fun _ : Unit => "doc") (fun _ => ()) "t1" "t2"
    "" "dir" [("a", ()), ("b", ())] (fun _ => none)).2.2.2
    (by decide) (fun t a => rfl)

end XGen
